import Mathlib

/-!
# dvelop-sdk-go: the log recorder of `otellog/otellogtest`

A shallow embedding of `otellog/otellogtest/recorder.go` and theorems about it.

Go strings are modelled by `String` (sequences of Unicode code points, that is, Go strings
holding valid UTF-8; on those the byte-wise substring relation of `strings.Contains` and the
substring relation on code points coincide).  The dynamic values that travel through `any`
are modelled by `GoValue` (values that are not functions) and `GoAny` (all of them).
Predicates of type `func(event otellog.Event) bool` are modelled as total functions
`Event → Bool`: non-nil, terminating and free of side effects.
-/

namespace otellogtest

/-! ## Data model -/

/-- Modelled from the spec: the type `otellog.Severity`, whose declaration is not among the
sources.  It is an unsigned integer type without a `String` method (the recorder tests pin
the rendering of `SeverityError` to `17`); `val` is the numeric code. -/
structure Severity where
  val : Nat
  deriving DecidableEq, Repr

/-- Modelled from the spec: the constant `otellog.SeverityInfo` (OpenTelemetry number 9). -/
def SeverityInfo : Severity := ⟨9⟩

/-- Modelled from the spec: the constant `otellog.SeverityError`; the numeric code 17 is the
one that `recorder_test.go` expects in the failure message. -/
def SeverityError : Severity := ⟨17⟩

/-- Dynamic Go values that are not functions: what a log body or a generic condition
can hold.  Each constructor stands for one dynamic type. -/
inductive GoValue where
  /-- The nil interface value. -/
  | nil
  /-- A value of the built-in type `bool`. -/
  | bool (b : Bool)
  /-- A value of the built-in type `int`. -/
  | int (n : Int)
  /-- A value of the built-in type `string`. -/
  | string (s : String)
  /-- A value of type `otellog.Severity`. -/
  | severity (s : Severity)
  /-- A value of a defined type `typeName` whose underlying type is `string` and that has
  no methods. -/
  | namedString (typeName : String) (s : String)
  /-- A value of a type `typeName` that has a `String() string` method (and no `Error` or
  `Format` method), such as `thing` in `recorder_test.go`; `str` is what the method returns
  for this value. -/
  | stringer (typeName : String) (str : String)
  deriving DecidableEq, Repr

/-- Modelled from the spec: the type `otellog.Attributes`, whose declaration is not among
the sources: "an ordered mapping of string key to string value". -/
abbrev Attributes := List (String × String)

/-- Modelled from the spec: the type `otellog.Event`, whose declaration is not among the
sources: severity, body, attributes and timestamp (nanoseconds since the Unix epoch). -/
structure Event where
  Severity : Severity
  Body : GoValue
  Attributes : Attributes
  Time : Nat
  deriving DecidableEq, Repr

/-- A dynamic Go value of interface type `any`: either a value that is not a function, or a
function of the exact type `func(event otellog.Event) bool`.  `entry` is the code address
of the function (not zero: the function is not nil), which is what `fmt` prints for it. -/
inductive GoAny where
  | value (v : GoValue)
  | func (entry : Nat) (f : Event → Bool)

/-! ## The parts of `fmt` and `strings` that the recorder uses -/

/-- The default (`%v`) rendering of a value that is not a function, as `fmt.Sprint` gives for a
single operand: a `String` method takes precedence, strings print as they are, integers in
decimal, the nil interface as `<nil>`. -/
def GoValue.Sprint : GoValue → String
  | .nil => "<nil>"
  | .bool b => if b then "true" else "false"
  | .int n => toString n
  | .string s => s
  | .severity s => toString s.val
  | .namedString _ s => s
  | .stringer _ str => str

/-- The default rendering of any dynamic value: `fmt.Sprint(x)`.  A function prints as its
code address in hexadecimal with the prefix `0x`. -/
def Sprint : GoAny → String
  | .value v => v.Sprint
  | .func entry _ => "0x" ++ String.mk (Nat.toDigits 16 entry)

/-- The loop of `fmt` that prints the elements of a slice under `%v`: a single space before
every element but the first; `i` is the index of the head of the list. -/
def printElems : List GoAny → Nat → String
  | [], _ => ""
  | x :: xs, i => (if i > 0 then " " else "") ++ Sprint x ++ printElems xs (i + 1)

/-- An operand of a formatting call: a single dynamic value or a slice `[]any`. -/
inductive Operand where
  | any (a : GoAny)
  | slice (xs : List GoAny)

/-- The rendering of an operand under the verb `%v`. -/
def formatV : Operand → String
  | .any a => Sprint a
  | .slice xs => "[" ++ printElems xs 0 ++ "]"

/-- The scan of `fmt.Sprintf` over the format, for the directives `%v` and `%%`; a format
with another directive, or operands left over at the end, is outside this fragment
(`none`). -/
def doPrintf : List Char → List Operand → Option String
  | [], [] => some ""
  | [], _ :: _ => none
  | '%' :: 'v' :: rest, a :: args => (doPrintf rest args).map (formatV a ++ ·)
  | '%' :: 'v' :: rest, [] => (doPrintf rest []).map ("%!v(MISSING)" ++ ·)
  | '%' :: '%' :: rest, args => (doPrintf rest args).map ("%" ++ ·)
  | '%' :: _, _ => none
  | c :: rest, args => (doPrintf rest args).map (String.singleton c ++ ·)

/-- The call `fmt.Sprintf(format, args...)`. -/
def Sprintf (format : String) (args : List Operand) : Option String :=
  doPrintf format.data args

/-- The call `strings.Contains(s, substr)`: whether `substr` is within `s`. -/
def stringsContains (s substr : String) : Bool :=
  decide (substr.data <:+: s.data)

/-! ## `recorder.go` -/

/-- A call received by the injected `testingT`. -/
inductive TCall where
  | Helper
  | Errorf (format : String) (args : List Operand)

/-- Whether the call is a failure report. -/
def TCall.isErrorf : TCall → Bool
  | .Helper => false
  | .Errorf _ _ => true

/-- The message of a failure report, as `testing.T` and the `fakeTestingT` of
`recorder_test.go` build it: `fmt.Sprintf(format, args...)`. -/
def TCall.message : TCall → Option String
  | .Helper => none
  | .Errorf format args => Sprintf format args

/-- The struct `LogRecorder`.  The injected `testingT` is represented by the calls it has
received so far, the oldest first. -/
structure LogRecorder where
  Events : List Event
  t : List TCall

/-- The function `matches` of `recorder.go`: the loop over `conditions` with its type
switch; the first condition that fails returns `false`. -/
def matches' (event : Event) : List GoAny → Bool
  | [] => true
  | condition :: conditions =>
    match condition with
    | .value (.severity condition) =>
      if event.Severity ≠ condition then false else matches' event conditions
    | .value (.int condition) =>
      if (event.Severity.val : Int) ≠ condition then false else matches' event conditions
    | .func _ condition =>
      if !condition event then false else matches' event conditions
    | .value condition =>
      let bodyAsString := event.Body.Sprint
      let conditionAsString := Sprint (.value condition)
      if !stringsContains bodyAsString conditionAsString then false
      else matches' event conditions

/-- The loop of `ShouldHaveLogged` over `l.Events`: `true` when it reaches the `return`,
that is, at the first event that matches. -/
def scanEvents : List Event → List GoAny → Bool
  | [], _ => false
  | event :: events, conditions =>
    if matches' event conditions then true else scanEvents events conditions

/-- The method `LogRecorder.ShouldHaveLogged`. -/
def LogRecorder.ShouldHaveLogged (l : LogRecorder) (conditions : List GoAny) : LogRecorder :=
  let l := { l with t := l.t ++ [TCall.Helper] }
  if scanEvents l.Events conditions then l
  else { l with t := l.t ++ [TCall.Errorf "no log found matching %v" [.slice conditions]] }

/-- The failure reports among the calls that a run of `ShouldHaveLogged` adds to `t`. -/
def reports (l : LogRecorder) (conditions : List GoAny) : List TCall :=
  ((l.ShouldHaveLogged conditions).t.drop l.t.length).filter TCall.isErrorf

/-- A Go `map[string]string`, as its entries; a key occurs at most once in a map that is
built with `GoMap.set` from the empty map. -/
abbrev GoMap := List (String × String)

/-- The assignment `m[k] = v`. -/
def GoMap.set (m : GoMap) (k v : String) : GoMap :=
  (k, v) :: m.filter (fun kv => kv.1 ≠ k)

/-- The index expression `m[k]`: the zero value `""` when `k` is not a key of `m`. -/
def GoMap.index (m : GoMap) (k : String) : String :=
  match m.lookup k with
  | some v => v
  | none => ""

/-- Modelled from the spec: the method `Attributes.MarshalJSON`, which is not among the
sources: the JSON object that has one string member per attribute, in the order of the
mapping.  The document is represented by the list of its members. -/
def Attributes.MarshalJSON (a : Attributes) : List (String × String) := a

/-- The call `json.Unmarshal(bytes, &attributes)` for a JSON object whose members are
strings and a `map[string]string`: the members are stored in order, so that a later member
replaces an earlier one that has the same key. -/
def jsonUnmarshal (members : List (String × String)) (attributes : GoMap) : GoMap :=
  members.foldl (fun m kv => m.set kv.1 kv.2) attributes

/-- The comparison `s == value` of a `string` with a value of type `any`: the string is
converted to `any`, and two interface values are equal when their dynamic types are
identical and their values are equal. -/
def stringEqAny (s : String) : GoAny → Bool
  | .value (.string s') => s == s'
  | _ => false

/-- The function `ContainsAttribute` of `recorder.go`. -/
def ContainsAttribute (key : String) (value : GoAny) : Event → Bool :=
  fun event =>
    let bytes := event.Attributes.MarshalJSON
    let attributes : GoMap := []
    let attributes := jsonUnmarshal bytes attributes
    stringEqAny (attributes.index key) value

/-- A JSON value, as far as decoding it into a Go `string` distinguishes: a JSON string,
the literal `null`, or any other value (a number, a boolean, an array, an object). -/
inductive JsonValue where
  | string (s : String)
  | null
  | other
  deriving DecidableEq, Repr

/-- The bytes handed to `json.Unmarshal`, as far as decoding them into a
`map[string]string` distinguishes. -/
inductive JsonDoc where
  /-- Bytes that are not a well-formed JSON text; no bytes at all are of this kind. -/
  | invalid
  /-- The JSON text `null`. -/
  | null
  /-- A well-formed JSON text that is a string, a number, a boolean or an array. -/
  | notObject
  /-- A JSON object, as the list of its members. -/
  | object (members : List (String × JsonValue))
  deriving DecidableEq, Repr

/-- What `event.Attributes.MarshalJSON()` returns: an error (and then no bytes), or
bytes. -/
inductive Marshalled where
  | error
  | ok (doc : JsonDoc)
  deriving DecidableEq, Repr

/-- The first result of `MarshalJSON`, which is all that `ContainsAttribute` keeps. -/
def Marshalled.bytes : Marshalled → JsonDoc
  | .error => .invalid
  | .ok doc => doc

/-- The string that decoding a JSON value into a Go `string` stores: the zero string for a
value that is not a JSON string. -/
def JsonValue.asString : JsonValue → String
  | .string s => s
  | _ => ""

/-- Whether decoding a JSON value into a Go `string` records an `UnmarshalTypeError`. -/
def JsonValue.typeError : JsonValue → Bool
  | .other => true
  | _ => false

/-- The call `json.Unmarshal(bytes, &attributes)` for a `map[string]string`, on any bytes:
the map afterwards, and whether an error is returned.  Bytes that are not well formed and
values that are not objects leave the map as it is and return an error; `null` sets the
map to nil; the members of an object are stored in order, a member that is not a string is
skipped with an error (the key reads as the zero string) and decoding goes on. -/
def jsonUnmarshalDoc (bytes : JsonDoc) (attributes : GoMap) : GoMap × Bool :=
  match bytes with
  | .invalid => (attributes, true)
  | .null => ([], false)
  | .notObject => (attributes, true)
  | .object members =>
    (members.foldl (fun m kv => m.set kv.1 kv.2.asString) attributes,
     members.any (fun kv => kv.2.typeError))

/-- The closure that `ContainsAttribute` returns, from the point where
`event.Attributes.MarshalJSON()` has returned `marshalled`, whatever that is; both errors
are discarded, as the blank identifiers of the source do. -/
def ContainsAttributeOn (marshalled : Marshalled) (key : String) (value : GoAny) : Bool :=
  let bytes := marshalled.bytes
  let attributes : GoMap := []
  let attributes := (jsonUnmarshalDoc bytes attributes).1
  stringEqAny (attributes.index key) value

/-- Whether the attribute lookup of `ContainsAttribute` fails: the encoding returns an
error or the decoding does. -/
def lookupFails (marshalled : Marshalled) : Bool :=
  match marshalled with
  | .error => true
  | .ok doc => (jsonUnmarshalDoc doc []).2

/-- The outcome of `MarshalJSON` on an attribute mapping of the data model: the object with
one string member per attribute. -/
def Attributes.marshalled (a : Attributes) : Marshalled :=
  .ok (.object (a.MarshalJSON.map (fun kv => (kv.1, JsonValue.string kv.2))))

/-- The instant `time.Date(2022, time.January, 01, 1, 2, 3, 4, time.UTC)` in nanoseconds
since the Unix epoch. -/
def fixedTime : Nat := 1640998923000000004

/-- The two extension points of the logging engine that `NewLogRecorder` replaces.  The
output formatter it installs is a closure over the recorder, hence a transition of the
recorder state that also yields the pair `([]byte, error)`. -/
structure Hooks where
  outputFormatter : Event → LogRecorder → (List UInt8 × Option String) × LogRecorder
  time : Unit → Nat

/-- The function `NewLogRecorder`: the new recorder and the hooks that it installs. -/
def NewLogRecorder (t : List TCall) : LogRecorder × Hooks :=
  let recorder : LogRecorder := { Events := [], t := t }
  (recorder,
   { outputFormatter := fun event r => (([], none), { r with Events := r.Events ++ [event] })
     time := fun _ => fixedTime })

/-- The logging engine invoking the installed output formatter once per event, in order. -/
def invokeAll (h : Hooks) : List Event → LogRecorder → LogRecorder
  | [], r => r
  | event :: events, r => invokeAll h events (h.outputFormatter event r).2

end otellogtest

/-!
# dvelop-sdk-go: trace context propagation (`tracecontext`)

Of this package only `tracecontextmiddleware_test.go` is among the sources; the package
itself is modelled from the specification.  The spy and the mock of the test file are
embedded from the source.
-/

namespace tracecontext

/-! ## Context carrier -/

/-- Modelled from the spec: the Context Carrier, which is not among the sources: "an opaque,
append-only association from string keys to string values"; every `With...` call puts a
layer on top of its input, so the newest layer comes first. -/
abbrev Context := List (String × String)

/-- Modelled from the spec: the key under which the trace id is stored. -/
def traceIdKey : String := "traceId"

/-- Modelled from the spec: the key under which the span id is stored. -/
def spanIdKey : String := "spanId"

/-- The empty context `context.Background()`. -/
def Background : Context := []

/-- Modelled from the spec: `withTraceId(carrier, id) -> carrier'`: a new carrier layered on
top of the input. -/
def WithTraceIdCtx (ctx : Context) (traceId : String) : Context :=
  (traceIdKey, traceId) :: ctx

/-- Modelled from the spec: `withSpanId(carrier, id) -> carrier'`. -/
def WithSpanIdCtx (ctx : Context) (spanId : String) : Context :=
  (spanIdKey, spanId) :: ctx

/-- Modelled from the spec: `traceId(carrier) -> (id, present)`; `none` is "not present". -/
def TraceIdFromCtx (ctx : Context) : Option String :=
  ctx.lookup traceIdKey

/-- Modelled from the spec: `spanId(carrier) -> (id, present)`. -/
def SpanIdFromCtx (ctx : Context) : Option String :=
  ctx.lookup spanIdKey

/-! ## Traceparent codec -/

/-- Modelled from the spec: `serialize(traceId, spanId) -> headerValue`, which "always emits
version 00 and flags 01". -/
def serialize (traceId spanId : String) : String :=
  "00-" ++ traceId ++ "-" ++ spanId ++ "-01"

/-- Modelled from the spec: `traceparent(carrier) -> (value, present)`, "computed on demand
by combining stored trace id and span id; present=false if either is missing". -/
def TraceparentFromCtx (ctx : Context) : Option String :=
  match TraceIdFromCtx ctx, SpanIdFromCtx ctx with
  | some traceId, some spanId => some (serialize traceId spanId)
  | _, _ => none

/-- The fields of a text between the occurrences of a separator; a text without the
separator, the empty text included, is one field. -/
def splitOn (sep : Char) : List Char → List (List Char)
  | [] => [[]]
  | c :: cs =>
    if c = sep then [] :: splitOn sep cs
    else (c :: (splitOn sep cs).headD []) :: (splitOn sep cs).tail

/-- A hexadecimal character of the wire format, in which "all hex" is lowercase. -/
def isLowerHex (c : Char) : Bool :=
  ('0' ≤ c && c ≤ '9') || ('a' ≤ c && c ≤ 'f')

/-- A field of exactly `n` hexadecimal characters. -/
def isHexOfLength (n : Nat) (field : List Char) : Bool :=
  field.length == n && field.all isLowerHex

/-- A field that consists of zeros only. -/
def allZero (field : List Char) : Bool :=
  field.all (fun c => c == '0')

/-- Modelled from the spec: `parse(headerValue) -> (traceId, spanId, ok)`, which is not among
the sources: "split on `-` into exactly 4 fields.  Validate: field 1 is a recognized version
(only `00` accepted), field 2 is exactly 32 hex characters and not all-zero, field 3 is
exactly 16 hex characters and not all-zero, field 4 is exactly 2 hex characters".  The
result `none` is `ok = false`. -/
def parse (headerValue : String) : Option (String × String) :=
  match splitOn '-' headerValue.data with
  | [version, traceId, spanId, flags] =>
    if version = "00".data
        && isHexOfLength 32 traceId && !allZero traceId
        && isHexOfLength 16 spanId && !allZero spanId
        && isHexOfLength 2 flags
    then some (String.mk traceId, String.mk spanId)
    else none
  | _ => none

/-- A header value that is malformed as a traceparent, in the words of the spec: "wrong
field count, non-hex chars, wrong lengths, all-zero id, unsupported version". -/
def malformed (headerValue : String) : Prop :=
  match splitOn '-' headerValue.data with
  | [version, traceId, spanId, flags] =>
    version ≠ "00".data ∨
    traceId.length ≠ 32 ∨ (∃ c ∈ traceId, isLowerHex c = false) ∨ (∀ c ∈ traceId, c = '0') ∨
    spanId.length ≠ 16 ∨ (∃ c ∈ spanId, isLowerHex c = false) ∨ (∀ c ∈ spanId, c = '0') ∨
    flags.length ≠ 2 ∨ (∃ c ∈ flags, isLowerHex c = false)
  | _ => True

instance (headerValue : String) : Decidable (malformed headerValue) := by
  unfold malformed
  split <;> infer_instance

/-! ## Identifier generator -/

/-- The random source: the bytes it can still deliver. -/
abbrev RandomSource := List UInt8

/-- The two lowercase hexadecimal characters of a byte. -/
def hexByte (b : UInt8) : List Char :=
  [Nat.digitChar (b.toNat / 16), Nat.digitChar (b.toNat % 16)]

/-- The lowercase hexadecimal text of a sequence of bytes. -/
def hexEncode : List UInt8 → List Char
  | [] => []
  | b :: bs => hexByte b ++ hexEncode bs

/-- An identifier of `n` random bytes as hexadecimal text, and the source afterwards;
`none` when the source is exhausted, which the spec treats as fatal. -/
def randomHex (n : Nat) (rnd : RandomSource) : Option (String × RandomSource) :=
  if rnd.length < n then none
  else some (String.mk (hexEncode (rnd.take n)), rnd.drop n)

/-- Modelled from the spec: `newTraceId() -> 32-hex-char string` (128 random bits). -/
def newTraceId (rnd : RandomSource) : Option (String × RandomSource) :=
  randomHex 16 rnd

/-- Modelled from the spec: `newSpanId() -> 16-hex-char string` (64 random bits). -/
def newSpanId (rnd : RandomSource) : Option (String × RandomSource) :=
  randomHex 8 rnd

/-! ## Requests, the middleware and the outbound injector -/

/-- Modelled from the spec: the headers of a request, with the capabilities "get header by
name" and "set header by name". -/
abbrev Header := List (String × String)

/-- The value of a header; the empty string when the header is absent. -/
def Header.Get (h : Header) (name : String) : String :=
  match h.lookup name with
  | some v => v
  | none => ""

/-- Sets a header, which replaces the value it had. -/
def Header.Set (h : Header) (name value : String) : Header :=
  (name, value) :: h.filter (fun kv => kv.1 ≠ name)

/-- Modelled from the spec: a request: method, target, headers and the context it
carries. -/
structure Request where
  Method : String
  URL : String
  Header : Header
  ctx : Context
  deriving DecidableEq, Repr

/-- The request that `http.NewRequest(method, url, nil)` builds: no headers, and the
background context. -/
def NewRequest (method url : String) : Request :=
  { Method := method, URL := url, Header := [], ctx := Background }

/-- The name of the header. -/
def traceparentHeader : String := "traceparent"

/-- The context that the middleware derives for a header value: the parsed trace id, or a
fresh one when the header does not parse, and always a fresh span id.  `none` when the
random source is exhausted. -/
def deriveCtx (traceparent : String) (ctx : Context) (rnd : RandomSource) :
    Option (Context × RandomSource) :=
  let traceId :=
    match parse traceparent with
    | some (traceId, _) => some (traceId, rnd)
    | none => newTraceId rnd
  match traceId with
  | none => none
  | some (traceId, rnd) =>
    match newSpanId rnd with
    | none => none
    | some (spanId, rnd) => some (WithSpanIdCtx (WithTraceIdCtx ctx traceId) spanId, rnd)

/-- Modelled from the spec: the Propagation Middleware `AddToCtx()(next)`, which is not among
the sources: it reads the `traceparent` header (absent: the empty string), derives the
context, and invokes the next handler with the request carrying that context, passing its
result through.  A handler is a function of the request on the state `σ` that it acts on
(the response writer, the fields of a spy). -/
def AddToCtx {σ : Type} (next : Request → σ → σ) (req : Request) (rnd : RandomSource)
    (st : σ) : Option (σ × RandomSource) :=
  let traceparent := req.Header.Get traceparentHeader
  match deriveCtx traceparent req.ctx rnd with
  | none => none
  | some (ctx, rnd) => some (next { req with ctx := ctx } st, rnd)

/-- Modelled from the spec: the Outbound Injector `RoundTripper(inner).RoundTrip(req)`, which
is not among the sources: "read traceparent from the active Context Carrier; if present, set
the traceparent header on the outbound request to that value; if absent, leave outbound
headers untouched.  Then delegate to the wrapped transport and return its result/error
unchanged". -/
def RoundTrip {ρ : Type} (inner : Request → ρ) (req : Request) : ρ :=
  match TraceparentFromCtx req.ctx with
  | some traceparent =>
    inner { req with Header := req.Header.Set traceparentHeader traceparent }
  | none => inner req

/-! ## The spy and the mock of `tracecontextmiddleware_test.go` -/

/-- The struct `handlerSpy`. -/
structure handlerSpy where
  hasBeenCalled : Bool
  traceparent : String
  traceId : String
  spanId : String
  deriving DecidableEq, Repr

/-- The method `handlerSpy.ServeHTTP`; an id that is not present reads as the zero
string. -/
def handlerSpy.ServeHTTP (r : Request) (_spy : handlerSpy) : handlerSpy :=
  { hasBeenCalled := true
    traceId := (TraceIdFromCtx r.ctx).getD ""
    spanId := (SpanIdFromCtx r.ctx).getD ""
    traceparent := (TraceparentFromCtx r.ctx).getD "" }

/-- The struct `http.Response`, of which the mock fills the field `Request`. -/
structure Response where
  Request : Request
  deriving DecidableEq, Repr

/-- The method `roundTripperMock.RoundTrip`: the response that holds the request, and no
error. -/
def roundTripperMock.RoundTrip (req : Request) : Response × Option String :=
  ({ Request := req }, none)

end tracecontext

namespace otellogtest

/-! ## Lemmas about the embedding -/

theorem scanEvents_eq_any (events : List Event) (conditions : List GoAny) :
    scanEvents events conditions = events.any (fun e => matches' e conditions) := by
  induction events with
  | nil => rfl
  | cons e es ih =>
    simp only [scanEvents, List.any_cons, ih]
    cases matches' e conditions <;> simp

theorem ShouldHaveLogged_Events (l : LogRecorder) (conditions : List GoAny) :
    (l.ShouldHaveLogged conditions).Events = l.Events := by
  unfold LogRecorder.ShouldHaveLogged
  dsimp only
  split <;> rfl

theorem reports_eq (l : LogRecorder) (conditions : List GoAny) :
    reports l conditions =
      if scanEvents l.Events conditions then []
      else [TCall.Errorf "no log found matching %v" [.slice conditions]] := by
  unfold reports LogRecorder.ShouldHaveLogged
  dsimp only
  split
  · simp [TCall.isErrorf]
  · simp [TCall.isErrorf, List.append_assoc]

theorem matches_cons (event : Event) (c : GoAny) (cs : List GoAny) :
    matches' event (c :: cs) = (matches' event [c] && matches' event cs) := by
  cases c with
  | func a f => cases h : f event <;> simp [matches', h]
  | value v =>
    cases v <;> simp only [matches'] <;> split <;> simp_all

theorem matches_append (event : Event) (cs ds : List GoAny) :
    matches' event (cs ++ ds) = (matches' event cs && matches' event ds) := by
  induction cs with
  | nil => simp [matches']
  | cons c cs ih =>
    rw [List.cons_append, matches_cons, ih, matches_cons event c cs, Bool.and_assoc]

theorem matches_iff_forall (event : Event) (conds : List GoAny) :
    matches' event conds = true ↔ ∀ c ∈ conds, matches' event [c] = true := by
  induction conds with
  | nil => simp [matches']
  | cons c cs ih => rw [matches_cons]; simp [ih]


theorem intercalate_go_data (s acc : String) (l : List String) :
    (String.intercalate.go acc s l).data =
      acc.data ++ (l.map (fun a => s.data ++ a.data)).flatten := by
  induction l generalizing acc with
  | nil => simp [String.intercalate.go]
  | cons a l ih => simp [String.intercalate.go, ih, String.data_append]

theorem printElems_succ_data (xs : List GoAny) (i : Nat) :
    (printElems xs (i + 1)).data =
      (xs.map (fun x => " ".data ++ (Sprint x).data)).flatten := by
  induction xs generalizing i with
  | nil => simp [printElems]
  | cons x xs ih => simp [printElems, ih, String.data_append]

theorem printElems_zero (xs : List GoAny) :
    printElems xs 0 = " ".intercalate (xs.map Sprint) := by
  cases xs with
  | nil => rfl
  | cons x xs =>
    apply String.ext
    simp [printElems, String.intercalate, intercalate_go_data, printElems_succ_data,
      String.data_append, List.map_map, Function.comp_def]

theorem formatV_slice (xs : List GoAny) :
    formatV (.slice xs) = "[" ++ " ".intercalate (xs.map Sprint) ++ "]" := by
  simp [formatV, printElems_zero]

theorem Sprintf_failure (conditions : List GoAny) :
    Sprintf "no log found matching %v" [.slice conditions] =
      some ("no log found matching [" ++ " ".intercalate (conditions.map Sprint) ++ "]") := by
  simp only [Sprintf, doPrintf, Option.map_some', formatV_slice]
  congr 1
  apply String.ext
  simp [String.data_append]


theorem matches_single_generic (event : Event) (v : GoValue)
    (hsev : ∀ s, v ≠ .severity s) (hint : ∀ n, v ≠ .int n) :
    matches' event [.value v] = stringsContains event.Body.Sprint (Sprint (.value v)) := by
  cases v with
  | severity s => exact absurd rfl (hsev s)
  | int n => exact absurd rfl (hint n)
  | _ => simp only [matches']; split <;> simp_all

theorem lookup_filter_ne (m : GoMap) (k k' : String) (h : k' ≠ k) :
    (m.filter (fun kv => kv.1 ≠ k)).lookup k' = m.lookup k' := by
  induction m with
  | nil => rfl
  | cons kv m ih =>
    obtain ⟨a, b⟩ := kv
    simp only [ne_eq, decide_not] at ih ⊢
    by_cases hak : a = k
    · subst hak
      have hne : (k' == a) = false := by simpa using h
      simp [List.filter_cons, List.lookup_cons, hne, ih]
    · by_cases hka : k' = a
      · subst hka
        simp [List.filter_cons, List.lookup_cons, hak]
      · have hne : (k' == a) = false := by simpa using hka
        simp [List.filter_cons, List.lookup_cons, hak, hne, ih]

theorem index_set (m : GoMap) (k v k' : String) :
    (m.set k v).index k' = if k' = k then v else m.index k' := by
  unfold GoMap.index GoMap.set
  by_cases h : k' = k
  · subst h
    simp [List.lookup_cons]
  · have hne : (k' == k) = false := by simpa using h
    have hlk := lookup_filter_ne m k k' h
    simp only [ne_eq, decide_not] at hlk
    simp [List.lookup_cons, hne, h, hlk]

theorem jsonUnmarshal_concat (a : List (String × String)) (k v : String) (m : GoMap) :
    jsonUnmarshal (a ++ [(k, v)]) m = (jsonUnmarshal a m).set k v := by
  simp [jsonUnmarshal, List.foldl_append]

theorem index_jsonUnmarshal_of_not_mem (a : List (String × String)) (m : GoMap) (key : String)
    (h : key ∉ a.map Prod.fst) : (jsonUnmarshal a m).index key = m.index key := by
  induction a using List.reverseRecOn with
  | nil => rfl
  | append_singleton a kv ih =>
    obtain ⟨k, v⟩ := kv
    simp only [List.map_append, List.map_cons, List.map_nil, List.mem_append,
      List.mem_singleton, not_or] at h
    rw [jsonUnmarshal_concat, index_set, if_neg h.2, ih h.1]

theorem index_jsonUnmarshal (a : List (String × String)) (key s : String)
    (hkeys : (a.map Prod.fst).Nodup) :
    (jsonUnmarshal a []).index key = s ↔
      (key, s) ∈ a ∨ (key ∉ a.map Prod.fst ∧ s = "") := by
  induction a using List.reverseRecOn with
  | nil => simp [jsonUnmarshal, GoMap.index, eq_comm]
  | append_singleton a kv ih =>
    obtain ⟨k, v⟩ := kv
    rw [List.map_append, List.nodup_append] at hkeys
    obtain ⟨hnd, -, hdisj⟩ := hkeys
    have hk : k ∉ a.map Prod.fst := fun hmem =>
      hdisj hmem (by simp)
    rw [jsonUnmarshal_concat, index_set]
    by_cases h : key = k
    · subst h
      have hnot : ∀ s', (key, s') ∉ a := fun s' hmem =>
        hk (List.mem_map.mpr ⟨(key, s'), hmem, rfl⟩)
      simp [hnot, eq_comm]
    · have hne : ¬ k = key := fun e => h e.symm
      simp [h, hne, ih hnd]

theorem reports_message (l : LogRecorder) (conds : List GoAny) :
    (reports l conds).map TCall.message =
      (if l.Events.any (fun e => matches' e conds) then []
       else [some ("no log found matching [" ++ " ".intercalate (conds.map Sprint) ++ "]")]) := by
  rw [reports_eq, scanEvents_eq_any]
  split
  · rfl
  · simp [TCall.message, Sprintf_failure]

theorem matches_perm_eq (event : Event) (conds conds' : List GoAny) (h : conds.Perm conds') :
    matches' event conds' = matches' event conds := by
  have hiff : matches' event conds' = true ↔ matches' event conds = true := by
    rw [matches_iff_forall, matches_iff_forall]
    exact ⟨fun hc c hm => hc c (h.mem_iff.mp hm), fun hc c hm => hc c (h.mem_iff.mpr hm)⟩
  cases h1 : matches' event conds' <;> cases h2 : matches' event conds <;> simp_all

theorem scanEvents_perm (events : List Event) (conds conds' : List GoAny)
    (h : conds.Perm conds') : scanEvents events conds' = scanEvents events conds := by
  induction events with
  | nil => rfl
  | cons e es ih => simp only [scanEvents, matches_perm_eq e conds conds' h, ih]

/-- Two words without a space that are each followed by a space agree when the texts agree. -/
theorem word_space_inj (sp : Char) (a a' r r' : List Char) (ha : sp ∉ a) (ha' : sp ∉ a')
    (h : a ++ sp :: r = a' ++ sp :: r') : a = a' ∧ r = r' := by
  induction a generalizing a' with
  | nil =>
    cases a' with
    | nil => exact ⟨rfl, by simpa using h⟩
    | cons c cs =>
      simp only [List.nil_append, List.cons_append, List.cons.injEq] at h
      exact absurd (h.1 ▸ List.mem_cons_self _ _) ha'
  | cons b bs ih =>
    cases a' with
    | nil =>
      simp only [List.nil_append, List.cons_append, List.cons.injEq] at h
      exact absurd (h.1 ▸ List.mem_cons_self _ _) ha
    | cons c cs =>
      simp only [List.cons_append, List.cons.injEq] at h
      obtain ⟨hbc, hrest⟩ := h
      have := ih cs (fun hm => ha (List.mem_cons_of_mem _ hm))
        (fun hm => ha' (List.mem_cons_of_mem _ hm)) hrest
      exact ⟨by rw [hbc, this.1], this.2⟩

/-- Joining words without a space by a space before each but the first is injective on
lists of equal length. -/
theorem spaced_words_inj (sp : Char) (ws ws' : List (List Char)) (a a' : List Char)
    (hlen : ws.length = ws'.length)
    (ha : sp ∉ a) (ha' : sp ∉ a') (hws : ∀ w ∈ ws, sp ∉ w) (hws' : ∀ w ∈ ws', sp ∉ w)
    (h : a ++ (ws.map (fun w => [sp] ++ w)).flatten = a' ++ (ws'.map (fun w => [sp] ++ w)).flatten) :
    a = a' ∧ ws = ws' := by
  induction ws generalizing a a' ws' with
  | nil =>
    cases ws' with
    | nil => exact ⟨by simpa using h, rfl⟩
    | cons w' ws' => cases hlen
  | cons w ws ih =>
    cases ws' with
    | nil => cases hlen
    | cons w' ws' =>
      simp only [List.map_cons, List.flatten_cons, List.singleton_append, List.cons_append,
        List.nil_append] at h
      obtain ⟨haa, hrest⟩ := word_space_inj sp a a' _ _ ha ha' h
      have hlen' : ws.length = ws'.length := by simpa using hlen
      have := ih ws' w w' hlen' (hws w (List.mem_cons_self _ _))
        (hws' w' (List.mem_cons_self _ _))
        (fun x hx => hws x (List.mem_cons_of_mem _ hx))
        (fun x hx => hws' x (List.mem_cons_of_mem _ hx)) hrest
      exact ⟨haa, by rw [this.1, this.2]⟩

theorem intercalate_space_inj (l l' : List String) (hlen : l.length = l'.length)
    (hl : ∀ s ∈ l, ' ' ∉ s.data) (hl' : ∀ s ∈ l', ' ' ∉ s.data)
    (h : " ".intercalate l = " ".intercalate l') : l = l' := by
  cases l with
  | nil =>
    cases l' with
    | nil => rfl
    | cons b bs => cases hlen
  | cons a as =>
    cases l' with
    | nil => cases hlen
    | cons b bs =>
      have hd := congrArg String.data h
      simp only [String.intercalate, intercalate_go_data] at hd
      have hmap : ∀ xs : List String, xs.map (fun x => " ".data ++ x.data)
          = (xs.map String.data).map (fun w => [' '] ++ w) := by
        intro xs
        simp [List.map_map, Function.comp_def]
      rw [hmap, hmap] at hd
      have := spaced_words_inj ' ' (as.map String.data) (bs.map String.data) a.data b.data
        (by simpa using hlen) (hl a (List.mem_cons_self _ _)) (hl' b (List.mem_cons_self _ _))
        (by
          intro w hw
          obtain ⟨x, hx, rfl⟩ := List.mem_map.mp hw
          exact hl x (List.mem_cons_of_mem _ hx))
        (by
          intro w hw
          obtain ⟨x, hx, rfl⟩ := List.mem_map.mp hw
          exact hl' x (List.mem_cons_of_mem _ hx))
        hd
      have hdata_inj : Function.Injective String.data := fun x y hxy => String.ext hxy
      rw [String.ext this.1, (List.map_injective_iff.mpr hdata_inj) this.2]

theorem invokeAll_Events (t : List TCall) (es : List Event) (r : LogRecorder) :
    (invokeAll (NewLogRecorder t).2 es r).Events = r.Events ++ es ∧
    (invokeAll (NewLogRecorder t).2 es r).t = r.t := by
  induction es generalizing r with
  | nil => simp [invokeAll]
  | cons e es ih =>
    simp only [invokeAll]
    rw [(ih _).1, (ih _).2]
    simp [NewLogRecorder]

/-! ## The assertion `ShouldHaveLogged` -/

/-- C1: `ShouldHaveLogged(conds...)` calls the failure reporter `Errorf` exactly once when no
recorded event satisfies `matches(event, conds...)`, and not at all when at least one
recorded event satisfies it; the calls that `t` receives are `Helper` followed by those
reports, after the calls it had received before.  With the single Info event `"foo"`
recorded, the condition `"bar"` is reported once and the condition `"foo"` is not. -/
theorem ShouldHaveLogged_reports_once (l : LogRecorder) (conds : List GoAny) :
    ((reports l conds).length = 1 ↔ ∀ e ∈ l.Events, matches' e conds = false) ∧
    ((reports l conds).length = 0 ↔ ∃ e ∈ l.Events, matches' e conds = true) ∧
    (l.ShouldHaveLogged conds).t = l.t ++ TCall.Helper :: reports l conds ∧
    (reports ⟨[⟨SeverityInfo, .string "foo", [], fixedTime⟩], []⟩
      [.value (.string "bar")]).length = 1 ∧
    (reports ⟨[⟨SeverityInfo, .string "foo", [], fixedTime⟩], []⟩
      [.value (.string "foo")]).length = 0 := by
  have hany : scanEvents l.Events conds = true ↔ ∃ e ∈ l.Events, matches' e conds = true := by
    rw [scanEvents_eq_any, List.any_eq_true]
  refine ⟨?_, ?_, ?_, by decide, by decide⟩
  · rw [reports_eq]
    by_cases h : scanEvents l.Events conds = true
    · obtain ⟨e, he, hm⟩ := hany.mp h
      simp only [h, if_true, List.length_nil]
      constructor
      · intro h0; cases h0
      · intro hall; rw [hall e he] at hm; cases hm
    · have hf : scanEvents l.Events conds = false := by simpa using h
      simp only [hf, Bool.false_eq_true, if_false, List.length_singleton, true_iff]
      intro e he
      cases hm : matches' e conds
      · rfl
      · exact absurd (hany.mpr ⟨e, he, hm⟩) h
  · rw [reports_eq]
    by_cases h : scanEvents l.Events conds = true
    · simpa [h] using hany.mp h
    · have hf : scanEvents l.Events conds = false := by simpa using h
      simp only [hf, Bool.false_eq_true, if_false, List.length_singleton]
      constructor
      · intro h0; cases h0
      · intro hex; exact absurd (hany.mpr hex) h
  · rw [reports_eq]
    unfold LogRecorder.ShouldHaveLogged
    dsimp only
    split <;> simp

/-- C2: `matches(event, conds...)` is the logical AND of the conditions taken one at a time:
it is true exactly when every single condition of `conds` holds on its own, it distributes
over the concatenation of condition lists, and it is true for no conditions. -/
theorem matches_logical_and (event : Event) (conds cs ds : List GoAny) :
    (matches' event conds = true ↔ ∀ c ∈ conds, matches' event [c] = true) ∧
    matches' event (cs ++ ds) = (matches' event cs && matches' event ds) ∧
    matches' event [] = true :=
  ⟨matches_iff_forall event conds, matches_append event cs ds, rfl⟩

/-- C3: the failure reports of `ShouldHaveLogged(conds...)` carry the message
`no log found matching [` followed by the default renderings of the conditions in the order
given, separated by single spaces, followed by `]`; a Severity renders as its numeric code
in decimal.  The conditions `("bar")` give `no log found matching [bar]` and the conditions
`(SeverityError, "bar")` give `no log found matching [17 bar]`. -/
theorem ShouldHaveLogged_message (l : LogRecorder) (conds : List GoAny) :
    (reports l conds).map TCall.message =
      (if l.Events.any (fun e => matches' e conds) then []
       else [some ("no log found matching [" ++ " ".intercalate (conds.map Sprint) ++ "]")]) ∧
    (∀ s : Severity, Sprint (.value (.severity s)) = String.mk (Nat.toDigits 10 s.val)) ∧
    (reports ⟨[⟨SeverityInfo, .string "foo", [], fixedTime⟩], []⟩
        [.value (.string "bar")]).map TCall.message
      = [some "no log found matching [bar]"] ∧
    (reports ⟨[⟨SeverityInfo, .string "foo", [], fixedTime⟩], []⟩
        [.value (.severity SeverityError), .value (.string "bar")]).map TCall.message
      = [some "no log found matching [17 bar]"] := by
  exact ⟨reports_message l conds, fun _ => rfl, by decide, by decide⟩

/-! ## The condition matcher -/

/-- C4: for a single condition `c` that is neither a Severity, nor an int, nor a predicate
function on events, `matches(event, c)` is true exactly when the string rendering of `c` is a
substring of the string rendering of the body of the event; a value that has a `String`
method renders as the result of that method.  The body `"foo bar"` matches `"foo"` and does
not match `"baz"`, and the body `thing{"foo"}` matches the condition `thing{"foo"}`. -/
theorem matches_generic_condition (event : Event) (c : GoAny)
    (hsev : ∀ s, c ≠ .value (.severity s)) (hint : ∀ n, c ≠ .value (.int n))
    (hfunc : ∀ entry f, c ≠ .func entry f) :
    (matches' event [c] = true ↔ (Sprint c).data <:+: event.Body.Sprint.data) ∧
    (∀ typeName str, Sprint (.value (.stringer typeName str)) = str) ∧
    matches' ⟨SeverityInfo, .string "foo bar", [], fixedTime⟩ [.value (.string "foo")] = true ∧
    matches' ⟨SeverityInfo, .string "foo bar", [], fixedTime⟩ [.value (.string "baz")] = false ∧
    matches' ⟨SeverityInfo, .stringer "thing" "foo", [], fixedTime⟩
      [.value (.stringer "thing" "foo")] = true := by
  refine ⟨?_, fun _ _ => rfl, by decide, by decide, by decide⟩
  cases c with
  | func entry f => exact absurd rfl (hfunc entry f)
  | value v =>
    rw [matches_single_generic event v (fun s h => hsev s (by rw [h]))
      (fun n h => hint n (by rw [h]))]
    simp [stringsContains]

theorem matches_generic_condition_witness :
    (∀ s, GoAny.value (.string "foo") ≠ .value (.severity s)) ∧
    (∀ n, GoAny.value (.string "foo") ≠ .value (.int n)) ∧
    (∀ entry f, GoAny.value (.string "foo") ≠ .func entry f) ∧
    (matches' ⟨SeverityInfo, .string "foo bar", [], fixedTime⟩ [.value (.string "foo")] = true ↔
      (Sprint (.value (.string "foo"))).data <:+:
        (Event.mk SeverityInfo (.string "foo bar") [] fixedTime).Body.Sprint.data) :=
  ⟨(fun _ h => by cases h), (fun _ h => by cases h), (fun _ _ h => by cases h),
   (matches_generic_condition ⟨SeverityInfo, .string "foo bar", [], fixedTime⟩
      (.value (.string "foo")) (fun _ h => by cases h) (fun _ h => by cases h)
      (fun _ _ h => by cases h)).1⟩

/-- C5: for a Severity condition `s`, `matches(event, s)` is true exactly when the severity
of the event equals `s`, whatever its body, attributes and time are; an Info event does not
match `SeverityError` given as the only condition. -/
theorem matches_severity (event : Event) (s : Severity) :
    (matches' event [.value (.severity s)] = true ↔ event.Severity = s) ∧
    (∀ body attrs time,
      matches' ⟨SeverityInfo, body, attrs, time⟩ [.value (.severity SeverityError)] = false) := by
  constructor
  · simp [matches']
  · intro body attrs time
    simp [matches', SeverityInfo, SeverityError]

/-- C6: for an integer condition `n`, `matches(event, n)` is true exactly when the numeric
value of the severity of the event equals `n`; the integer is not compared against the
body: an Info event whose body renders as `42` does not match the integer 42, and an event
of severity code 42 matches it whatever its body is. -/
theorem matches_int (event : Event) (n : Int) :
    (matches' event [.value (.int n)] = true ↔ (event.Severity.val : Int) = n) ∧
    (∀ body, matches' { event with Body := body } [.value (.int n)]
      = matches' event [.value (.int n)]) ∧
    matches' ⟨SeverityInfo, .string "42", [], fixedTime⟩ [.value (.int 42)] = false ∧
    (∀ body attrs time, matches' ⟨⟨42⟩, body, attrs, time⟩ [.value (.int 42)] = true) := by
  refine ⟨?_, ?_, by decide, ?_⟩
  · simp [matches']
  · intro body
    simp [matches']
  · intro body attrs time
    simp [matches']

/-- C7: for a predicate `p` of type `func(Event) bool`, `matches(event, p)` is true exactly
when `p(event)` returns true, and `p` is applied to the recorded event itself: the
predicate that accepts only events equal to `event` in every field is satisfied. -/
theorem matches_predicate (event : Event) (entry : Nat) (p : Event → Bool) :
    (matches' event [.func entry p] = true ↔ p event = true) ∧
    matches' event [.func entry p] = p event ∧
    matches' event [.func entry (fun e => decide (e = event))] = true := by
  refine ⟨?_, ?_, ?_⟩
  · cases h : p event <;> simp [matches', h]
  · cases h : p event <;> simp [matches', h]
  · simp [matches']

/-! ## The predicate builder `ContainsAttribute` -/

/-- C8, as stated, fails: with the attribute `foo` stored as `"5"` and the int value 5, the
key is present and both renderings are `5`, yet `ContainsAttribute` is false; and with no
attribute `hello` and the empty string as value, `ContainsAttribute` is true. -/
theorem ContainsAttribute_not_by_rendering :
    (("foo", "5") ∈ (Event.mk SeverityInfo (.string "test") [("foo", "5")] fixedTime).Attributes ∧
      "5" = Sprint (.value (.int 5)) ∧
      ContainsAttribute "foo" (.value (.int 5))
        ⟨SeverityInfo, .string "test", [("foo", "5")], fixedTime⟩ = false) ∧
    ("hello" ∉ (Event.mk SeverityInfo (.string "test") [("foo", "bar")]
        fixedTime).Attributes.map Prod.fst ∧
      ContainsAttribute "hello" (.value (.string ""))
        ⟨SeverityInfo, .string "test", [("foo", "bar")], fixedTime⟩ = true) := by
  decide

theorem ContainsAttribute_iff_strings (k : String) (v : GoAny) (event : Event)
    (hkeys : (event.Attributes.map Prod.fst).Nodup) :
    ContainsAttribute k v event = true ↔
      ∃ s, v = .value (.string s) ∧
        ((k, s) ∈ event.Attributes ∨ (k ∉ event.Attributes.map Prod.fst ∧ s = "")) := by
  unfold ContainsAttribute Attributes.MarshalJSON
  dsimp only
  cases v with
  | func entry f => simp [stringEqAny]
  | value w =>
    cases w <;> simp only [stringEqAny, Bool.false_eq_true, false_iff, not_exists, not_and,
      GoAny.value.injEq, reduceCtorEq, false_implies, implies_true]
    case string s' =>
      rw [beq_iff_eq, index_jsonUnmarshal event.Attributes k s' hkeys]
      constructor
      · intro h; exact ⟨s', rfl, h⟩
      · rintro ⟨s, hs, h⟩
        cases hs
        exact h

/-! ## Order of the conditions -/

/-- C9, as stated, fails: `("a", "a a")` and `("a a", "a")` are permutations of each other
whose renderings differ in order, and on a recorder without events both assertions fail
with the same message `no log found matching [a a a]`. -/
theorem failure_message_order_collision :
    [GoAny.value (.string "a"), GoAny.value (.string "a a")].Perm
      [GoAny.value (.string "a a"), GoAny.value (.string "a")] ∧
    [GoAny.value (.string "a"), GoAny.value (.string "a a")].map Sprint
      ≠ [GoAny.value (.string "a a"), GoAny.value (.string "a")].map Sprint ∧
    (reports ⟨[], []⟩ [.value (.string "a"), .value (.string "a a")]).map TCall.message
      = [some "no log found matching [a a a]"] ∧
    (reports ⟨[], []⟩ [.value (.string "a a"), .value (.string "a")]).map TCall.message
      = [some "no log found matching [a a a]"] :=
  ⟨List.Perm.swap _ _ _, by decide, by decide, by decide⟩

/-- C9, amended: for a permutation `conds'` of `conds`, `matches(event, conds')` equals
`matches(event, conds)`, so `ShouldHaveLogged` fails for `conds'` exactly when it fails for
`conds`; the failure message lists the renderings of the conditions in the order they were
passed, and when no rendering contains a space the messages for `conds` and `conds'` differ
whenever their renderings differ in order. -/
theorem matches_perm_message (event : Event) (l : LogRecorder) (conds conds' : List GoAny)
    (hperm : conds.Perm conds') :
    matches' event conds' = matches' event conds ∧
    (reports l conds').length = (reports l conds).length ∧
    (∀ c ∈ reports l conds, c.message =
      some ("no log found matching [" ++ " ".intercalate (conds.map Sprint) ++ "]")) ∧
    ((∀ c ∈ conds, ' ' ∉ (Sprint c).data) → (∀ e ∈ l.Events, matches' e conds = false) →
      conds.map Sprint ≠ conds'.map Sprint →
      (reports l conds).map TCall.message ≠ (reports l conds').map TCall.message) := by
  refine ⟨matches_perm_eq event conds conds' hperm, ?_, ?_, ?_⟩
  · rw [reports_eq, reports_eq, scanEvents_perm l.Events conds conds' hperm]
    split <;> rfl
  · intro c hc
    have hmsg := reports_message l conds
    have hmem : c.message ∈ (reports l conds).map TCall.message :=
      List.mem_map.mpr ⟨c, hc, rfl⟩
    rw [hmsg] at hmem
    split at hmem
    · cases hmem
    · simpa using hmem
  · intro hspace hnone hdiff heq
    have hany : l.Events.any (fun e => matches' e conds) = false := by
      rw [List.any_eq_false]
      intro e he
      simp [hnone e he]
    have hany' : l.Events.any (fun e => matches' e conds') = false := by
      rw [← scanEvents_eq_any, scanEvents_perm l.Events conds conds' hperm, scanEvents_eq_any]
      exact hany
    rw [reports_message, reports_message, hany, hany'] at heq
    simp only [Bool.false_eq_true, if_false, List.cons.injEq, Option.some.injEq,
      and_true] at heq
    have hd := congrArg String.data heq
    simp only [String.data_append, List.append_assoc] at hd
    have hI := List.append_cancel_right (List.append_cancel_left hd)
    apply hdiff
    apply intercalate_space_inj _ _ (by simp [hperm.length_eq])
    · intro s hs
      obtain ⟨c, hc, rfl⟩ := List.mem_map.mp hs
      exact hspace c hc
    · intro s hs
      obtain ⟨c, hc, rfl⟩ := List.mem_map.mp hs
      exact hspace c (hperm.mem_iff.mpr hc)
    · exact String.ext hI

theorem matches_perm_message_witness :
    [GoAny.value (.string "foo"), GoAny.value (.string "bar")].Perm
      [GoAny.value (.string "bar"), GoAny.value (.string "foo")] ∧
    (∀ c ∈ [GoAny.value (.string "foo"), GoAny.value (.string "bar")],
      ' ' ∉ (Sprint c).data) ∧
    (reports ⟨[], []⟩ [.value (.string "foo"), .value (.string "bar")]).map TCall.message
      ≠ (reports ⟨[], []⟩ [.value (.string "bar"), .value (.string "foo")]).map
          TCall.message :=
  ⟨List.Perm.swap _ _ _, by decide,
   (matches_perm_message ⟨SeverityInfo, .string "foo", [], fixedTime⟩ ⟨[], []⟩
      [.value (.string "foo"), .value (.string "bar")]
      [.value (.string "bar"), .value (.string "foo")]
      (List.Perm.swap _ _ _)).2.2.2 (by decide)
      (fun _ he => by cases he) (by decide)⟩

/-! ## The recorder -/

/-- C10: a recorder returned by `NewLogRecorder` starts with an empty `Events` sequence;
every invocation of the output formatter it installs with an event `e` appends `e` at
the end of `Events`, leaves the earlier entries (and the injected `t`) unchanged and
returns an empty byte slice and no error; hence after the formatter has been invoked with
the events `es` in order, `Events` is exactly `es`, duplicates included. -/
theorem NewLogRecorder_records (t : List TCall) (r : LogRecorder) (e : Event)
    (es : List Event) :
    (NewLogRecorder t).1.Events = [] ∧
    (NewLogRecorder t).1.t = t ∧
    (((NewLogRecorder t).2.outputFormatter e r).2.Events = r.Events ++ [e]) ∧
    (∀ i, i < r.Events.length →
      ((NewLogRecorder t).2.outputFormatter e r).2.Events[i]? = r.Events[i]?) ∧
    ((NewLogRecorder t).2.outputFormatter e r).2.t = r.t ∧
    ((NewLogRecorder t).2.outputFormatter e r).1 = ([], none) ∧
    (invokeAll (NewLogRecorder t).2 es (NewLogRecorder t).1).Events = es ∧
    (invokeAll (NewLogRecorder t).2 [e, e] (NewLogRecorder t).1).Events = [e, e] := by
  refine ⟨rfl, rfl, rfl, ?_, rfl, rfl, ?_, rfl⟩
  · intro i hi
    show (r.Events ++ [e])[i]? = r.Events[i]?
    exact List.getElem?_append_left hi
  · rw [(invokeAll_Events t es _).1]
    simp [NewLogRecorder]

end otellogtest

namespace tracecontext

/-! ## Lemmas about the trace context model -/

theorem splitOn_of_not_mem (sep : Char) (a : List Char) (h : sep ∉ a) :
    splitOn sep a = [a] := by
  induction a with
  | nil => rfl
  | cons c cs ih =>
    have hc : c ≠ sep := fun e => h (e ▸ List.mem_cons_self _ _)
    have hcs : sep ∉ cs := fun hm => h (List.mem_cons_of_mem _ hm)
    simp [splitOn, hc, ih hcs]

theorem splitOn_append_sep (sep : Char) (a r : List Char) (h : sep ∉ a) :
    splitOn sep (a ++ sep :: r) = a :: splitOn sep r := by
  induction a with
  | nil => simp [splitOn]
  | cons c cs ih =>
    have hc : c ≠ sep := fun e => h (e ▸ List.mem_cons_self _ _)
    have hcs : sep ∉ cs := fun hm => h (List.mem_cons_of_mem _ hm)
    simp [splitOn, hc, ih hcs]

theorem isLowerHex_ne_hyphen (c : Char) (h : isLowerHex c = true) : c ≠ '-' := by
  intro e
  subst e
  revert h
  decide

theorem hyphen_not_mem_of_hex (n : Nat) (field : List Char) (h : isHexOfLength n field = true) :
    '-' ∉ field := by
  intro hm
  simp only [isHexOfLength, Bool.and_eq_true, List.all_eq_true] at h
  exact isLowerHex_ne_hyphen _ (h.2 _ hm) rfl

theorem parse_of_valid (traceId spanId flags : String)
    (ht : isHexOfLength 32 traceId.data = true) (htz : allZero traceId.data = false)
    (hs : isHexOfLength 16 spanId.data = true) (hsz : allZero spanId.data = false)
    (hf : isHexOfLength 2 flags.data = true) :
    parse ("00-" ++ traceId ++ "-" ++ spanId ++ "-" ++ flags) = some (traceId, spanId) := by
  have hsplit : splitOn '-' ("00-" ++ traceId ++ "-" ++ spanId ++ "-" ++ flags).data
      = ["00".data, traceId.data, spanId.data, flags.data] := by
    have h0 : ("00-" ++ traceId ++ "-" ++ spanId ++ "-" ++ flags).data
        = "00".data ++ '-' :: (traceId.data ++ '-' :: (spanId.data ++ '-' :: flags.data)) := by
      simp [String.data_append]
    rw [h0, splitOn_append_sep _ _ _ (by decide),
      splitOn_append_sep _ _ _ (hyphen_not_mem_of_hex 32 _ ht),
      splitOn_append_sep _ _ _ (hyphen_not_mem_of_hex 16 _ hs),
      splitOn_of_not_mem _ _ (hyphen_not_mem_of_hex 2 _ hf)]
  unfold parse
  rw [hsplit]
  simp [ht, htz, hs, hsz, hf]

theorem length_hexEncode (bytes : List UInt8) : (hexEncode bytes).length = 2 * bytes.length := by
  induction bytes with
  | nil => rfl
  | cons b bs ih => simp [hexEncode, hexByte, ih]; omega

theorem isLowerHex_digitChar (n : Nat) (h : n < 16) : isLowerHex (Nat.digitChar n) = true := by
  have : ∀ m : Fin 16, isLowerHex (Nat.digitChar m.val) = true := by decide
  exact this ⟨n, h⟩

theorem hexEncode_isLowerHex (bytes : List UInt8) :
    ∀ c ∈ hexEncode bytes, isLowerHex c = true := by
  induction bytes with
  | nil => intro c hc; cases hc
  | cons b bs ih =>
    intro c hc
    simp only [hexEncode, hexByte, List.cons_append, List.nil_append, List.mem_cons] at hc
    rcases hc with rfl | rfl | hc
    · exact isLowerHex_digitChar _ (Nat.div_lt_of_lt_mul (by have := b.toNat_lt; omega))
    · exact isLowerHex_digitChar _ (Nat.mod_lt _ (by decide))
    · exact ih c hc

theorem randomHex_of_le (n : Nat) (rnd : RandomSource) (h : n ≤ rnd.length) :
    randomHex n rnd = some (String.mk (hexEncode (rnd.take n)), rnd.drop n) ∧
    (String.mk (hexEncode (rnd.take n))).length = 2 * n := by
  constructor
  · simp [randomHex, Nat.not_lt.mpr h]
  · simp [String.length, length_hexEncode, Nat.min_eq_left h]

theorem lookup_same_ne (ctx : Context) (k k' v : String) (h : k' ≠ k) :
    List.lookup k' ((k, v) :: ctx) = List.lookup k' ctx := by
  have hne : (k' == k) = false := by simpa using h
  simp [List.lookup_cons, hne]

theorem Header_Get_Set (h : Header) (name value name' : String) :
    (h.Set name value).Get name' = if name' = name then value else h.Get name' := by
  unfold Header.Get Header.Set
  by_cases hn : name' = name
  · subst hn
    simp [List.lookup_cons]
  · have hne : (name' == name) = false := by simpa using hn
    have hlk := otellogtest.lookup_filter_ne h name name' hn
    simp only [ne_eq, decide_not] at hlk
    simp [List.lookup_cons, hne, hn, hlk]

end tracecontext

namespace tracecontext

theorem isHexOfLength_eq_false (n : Nat) (field : List Char) :
    isHexOfLength n field = false ↔ field.length ≠ n ∨ ∃ c ∈ field, isLowerHex c = false := by
  unfold isHexOfLength
  by_cases hl : field.length = n
  · by_cases ha : field.all isLowerHex = true
    · have ha' := ha
      simp only [List.all_eq_true] at ha'
      simp only [hl, beq_self_eq_true, ha, Bool.and_self, Bool.true_eq_false, ne_eq,
        not_true_eq_false, false_or, false_iff, not_exists, not_and, Bool.not_eq_false]
      exact ha'
    · have hf : field.all isLowerHex = false := by simpa using ha
      have hex : ∃ c ∈ field, isLowerHex c = false := by
        simpa [List.all_eq_true] using ha
      simp [hl, hf, hex]
  · have hb : (field.length == n) = false := by simpa using hl
    simp [hb, hl]

theorem allZero_eq_true (field : List Char) :
    allZero field = true ↔ ∀ c ∈ field, c = '0' := by
  simp [allZero, List.all_eq_true]

theorem parse_eq_none_iff (headerValue : String) :
    parse headerValue = none ↔ malformed headerValue := by
  unfold parse malformed
  split
  · rename_i version traceId spanId flags _
    rw [← allZero_eq_true, ← allZero_eq_true]
    have h32 := isHexOfLength_eq_false 32 traceId
    have h16 := isHexOfLength_eq_false 16 spanId
    have h2 := isHexOfLength_eq_false 2 flags
    generalize (∃ c ∈ traceId, isLowerHex c = false) = E1 at h32 ⊢
    generalize (∃ c ∈ spanId, isLowerHex c = false) = E2 at h16 ⊢
    generalize (∃ c ∈ flags, isLowerHex c = false) = E3 at h2 ⊢
    by_cases hv : version = "00".data
    · cases ht : isHexOfLength 32 traceId <;> cases htz : allZero traceId <;>
        cases hs : isHexOfLength 16 spanId <;> cases hsz : allZero spanId <;>
        cases hf : isHexOfLength 2 flags <;>
        simp_all
    · simp [hv]
  · simp

end tracecontext

namespace otellogtest

/-! ## Failing attribute lookups -/

theorem jsonUnmarshalDoc_strings (a : List (String × String)) (m : GoMap) :
    jsonUnmarshalDoc (.object (a.map (fun kv => (kv.1, JsonValue.string kv.2)))) m
      = (jsonUnmarshal a m, false) := by
  induction a generalizing m with
  | nil => rfl
  | cons kv a ih =>
    have h := ih (m.set kv.1 kv.2)
    simp only [jsonUnmarshalDoc, jsonUnmarshal, List.map_cons, List.foldl_cons,
      List.any_cons, JsonValue.asString, JsonValue.typeError, Bool.false_or] at h ⊢
    exact h

theorem ContainsAttribute_eq_On (key : String) (value : GoAny) (event : Event) :
    ContainsAttribute key value event
      = ContainsAttributeOn event.Attributes.marshalled key value := by
  unfold ContainsAttribute ContainsAttributeOn Attributes.marshalled Marshalled.bytes
  simp only [jsonUnmarshalDoc_strings]

theorem stringEqAny_empty (value : GoAny) :
    stringEqAny "" value = true ↔ value = .value (.string "") := by
  cases value with
  | func entry f => simp [stringEqAny]
  | value v =>
    cases v with
    | string s =>
      simp only [stringEqAny, beq_iff_eq, GoAny.value.injEq, GoValue.string.injEq]
      exact eq_comm
    | _ => simp [stringEqAny]

theorem stringEqAny_of_not_string (s : String) (value : GoAny)
    (h : ∀ s', value ≠ .value (.string s')) : stringEqAny s value = false := by
  cases value with
  | func entry f => rfl
  | value v =>
    cases v with
    | string s' => exact absurd rfl (h s')
    | _ => rfl

/-- C11, as stated, fails: when `MarshalJSON` returns an error, `ContainsAttribute("foo", "")`
is true; and when the encoding holds the string member foo="bar" next to a member that is
not a string, the decoding returns an error and `ContainsAttribute("foo", "bar")` is true. -/
theorem ContainsAttribute_true_on_failure :
    (lookupFails .error = true ∧
      ContainsAttributeOn .error "foo" (.value (.string "")) = true) ∧
    (lookupFails (.ok (.object [("foo", .string "bar"), ("count", .other)])) = true ∧
      ContainsAttributeOn (.ok (.object [("foo", .string "bar"), ("count", .other)]))
        "foo" (.value (.string "bar")) = true) := by
  decide

/-- C11, amended: `ContainsAttribute` never raises (both errors are discarded and the
closure yields a boolean on every outcome of the encoding).  When the attributes cannot be
encoded to JSON, or the encoding is not a JSON object, every attribute reads as the empty
string: the predicate is true exactly when `value` is the built-in empty string, and false
for every other value.  When the encoding is an object, a member that is not a string reads
as the empty string and the other members are matched as usual.  On an attribute mapping
of string values the closure is `ContainsAttribute` itself. -/
theorem ContainsAttribute_on_failure (marshalled : Marshalled) (key : String) (value : GoAny)
    (hfail : ∀ members, marshalled ≠ .ok (.object members)) :
    (ContainsAttributeOn marshalled key value = true ↔ value = .value (.string "")) ∧
    (∀ members : List (String × JsonValue),
      ContainsAttributeOn (.ok (.object members)) key value
        = ContainsAttributeOn
            (.ok (.object (members.map (fun kv => (kv.1, JsonValue.string kv.2.asString)))))
            key value) ∧
    (∀ event : Event, ContainsAttribute key value event
      = ContainsAttributeOn event.Attributes.marshalled key value) := by
  refine ⟨?_, ?_, fun event => ContainsAttribute_eq_On key value event⟩
  · have hidx : ((jsonUnmarshalDoc marshalled.bytes []).1).index key = "" := by
      cases marshalled with
      | error => rfl
      | ok doc =>
        cases doc with
        | object members => exact absurd rfl (hfail members)
        | _ => rfl
    unfold ContainsAttributeOn
    simp only [hidx]
    exact stringEqAny_empty value
  · intro members
    unfold ContainsAttributeOn Marshalled.bytes jsonUnmarshalDoc
    simp only [List.foldl_map, JsonValue.asString]

theorem ContainsAttribute_on_failure_witness :
    (∀ members, Marshalled.error ≠ .ok (.object members)) ∧
    (ContainsAttributeOn .error "foo" (.value (.string "bar")) = true ↔
      GoAny.value (.string "bar") = .value (.string "")) :=
  ⟨(fun _ h => by cases h),
   (ContainsAttribute_on_failure .error "foo" (.value (.string "bar"))
      (fun _ h => by cases h)).1⟩

end otellogtest

namespace otellogtest

/-! ## Further behaviour of `ContainsAttribute` and `ShouldHaveLogged` -/

theorem index_nil (k : String) : GoMap.index [] k = "" := rfl

theorem reports_eq_nil_iff (l : LogRecorder) (conds : List GoAny) :
    reports l conds = [] ↔ ∃ e ∈ l.Events, matches' e conds = true := by
  rw [reports_eq, ← List.any_eq_true, ← scanEvents_eq_any]
  cases scanEvents l.Events conds <;> simp

/-- C17: for an event whose attributes do not contain the key `k`, `ContainsAttribute(k, v)`
is true exactly when `v` is the empty string: the lookup of the absent key yields the zero
string, so the event is indistinguishable from the one that carries `k` with the empty
string as value. -/
theorem ContainsAttribute_missing_key (k : String) (v : GoAny) (event : Event)
    (hk : k ∉ event.Attributes.map Prod.fst) :
    (ContainsAttribute k v event = true ↔ v = .value (.string "")) ∧
    ContainsAttribute k v event
      = ContainsAttribute k v { event with Attributes := event.Attributes ++ [(k, "")] } := by
  have hidx : (jsonUnmarshal event.Attributes []).index k = "" := by
    rw [index_jsonUnmarshal_of_not_mem event.Attributes [] k hk, index_nil]
  constructor
  · unfold ContainsAttribute Attributes.MarshalJSON
    simp only [hidx]
    exact stringEqAny_empty v
  · unfold ContainsAttribute Attributes.MarshalJSON
    simp only [hidx, jsonUnmarshal_concat, index_set, if_true]

theorem ContainsAttribute_missing_key_witness :
    "hello" ∉ (Event.mk SeverityInfo (.string "test") [("foo", "bar")] fixedTime).Attributes.map
      Prod.fst ∧
    (ContainsAttribute "hello" (.value (.string ""))
        ⟨SeverityInfo, .string "test", [("foo", "bar")], fixedTime⟩ = true ↔
      GoAny.value (.string "") = .value (.string "")) :=
  ⟨by decide,
   (ContainsAttribute_missing_key "hello" (.value (.string ""))
      ⟨SeverityInfo, .string "test", [("foo", "bar")], fixedTime⟩ (by decide)).1⟩

/-- C18: for a value `v` whose dynamic type is not the built-in string type,
`ContainsAttribute(k, v)(event)` is false for every key and event, also when the event
carries `k` with a value whose text equals the rendering of `v`: so for the int 5 against
`"5"`, the bool true against `"true"`, a value of a named string type against its text, and
a value with a `String` method against the result of the method. -/
theorem ContainsAttribute_non_string (k : String) (v : GoAny) (event : Event)
    (hv : ∀ s, v ≠ .value (.string s)) :
    ContainsAttribute k v event = false ∧
    (Sprint (.value (.int 5)) = "5" ∧ ContainsAttribute "foo" (.value (.int 5))
      ⟨SeverityInfo, .string "test", [("foo", "5")], fixedTime⟩ = false) ∧
    (Sprint (.value (.bool true)) = "true" ∧ ContainsAttribute "foo" (.value (.bool true))
      ⟨SeverityInfo, .string "test", [("foo", "true")], fixedTime⟩ = false) ∧
    (Sprint (.value (.namedString "level" "bar")) = "bar" ∧
      ContainsAttribute "foo" (.value (.namedString "level" "bar"))
        ⟨SeverityInfo, .string "test", [("foo", "bar")], fixedTime⟩ = false) ∧
    (Sprint (.value (.stringer "thing" "bar")) = "bar" ∧
      ContainsAttribute "foo" (.value (.stringer "thing" "bar"))
        ⟨SeverityInfo, .string "test", [("foo", "bar")], fixedTime⟩ = false) := by
  refine ⟨?_, by decide, by decide, by decide, by decide⟩
  unfold ContainsAttribute
  exact stringEqAny_of_not_string _ v hv

theorem ContainsAttribute_non_string_witness :
    (∀ s, GoAny.value (.int 5) ≠ .value (.string s)) ∧
    ContainsAttribute "foo" (.value (.int 5))
      ⟨SeverityInfo, .string "test", [("foo", "5")], fixedTime⟩ = false :=
  ⟨(fun _ h => by cases h),
   (ContainsAttribute_non_string "foo" (.value (.int 5))
      ⟨SeverityInfo, .string "test", [("foo", "5")], fixedTime⟩ (fun _ h => by cases h)).1⟩

/-- C19: with no conditions, `ShouldHaveLogged()` reports no failure exactly when at least
one event has been recorded: on an empty `Events` sequence it fails with the message
`no log found matching []`, and on a non-empty one it succeeds, because `matches(event)`
with no conditions is true for every event. -/
theorem ShouldHaveLogged_no_conditions (l : LogRecorder) :
    ((reports l []).length = 0 ↔ l.Events ≠ []) ∧
    (reports ⟨[], l.t⟩ []).map TCall.message = [some "no log found matching []"] ∧
    (∀ e es, reports ⟨e :: es, l.t⟩ [] = []) ∧
    (∀ e, matches' e [] = true) := by
  refine ⟨?_, ?_, ?_, fun _ => rfl⟩
  · rw [List.length_eq_zero, reports_eq_nil_iff]
    cases l.Events with
    | nil => simp
    | cons e es => simp [matches']
  · rw [reports_message]
    rfl
  · intro e es
    rw [reports_eq_nil_iff]
    exact ⟨e, List.mem_cons_self _ _, rfl⟩

/-- C20: `ShouldHaveLogged` leaves the `Events` sequence as it is, and success is monotone in
the recording and independent of the position of the matching event: when
`ShouldHaveLogged(conds...)` reports no failure on `E`, it reports none on `E ++ F`, on
`F ++ E` and on every rearrangement of `E`. -/
theorem ShouldHaveLogged_monotone (t : List TCall) (conds : List GoAny) (E F : List Event)
    (h : reports ⟨E, t⟩ conds = []) :
    reports ⟨E ++ F, t⟩ conds = [] ∧
    reports ⟨F ++ E, t⟩ conds = [] ∧
    (∀ E', E.Perm E' → reports ⟨E', t⟩ conds = []) ∧
    (∀ l : LogRecorder, (l.ShouldHaveLogged conds).Events = l.Events) := by
  obtain ⟨e, he, hm⟩ := (reports_eq_nil_iff ⟨E, t⟩ conds).mp h
  refine ⟨?_, ?_, ?_, fun l => ShouldHaveLogged_Events l conds⟩
  · exact (reports_eq_nil_iff _ conds).mpr ⟨e, List.mem_append_left _ he, hm⟩
  · exact (reports_eq_nil_iff _ conds).mpr ⟨e, List.mem_append_right _ he, hm⟩
  · intro E' hperm
    exact (reports_eq_nil_iff _ conds).mpr ⟨e, hperm.mem_iff.mp he, hm⟩

theorem ShouldHaveLogged_monotone_witness :
    reports ⟨[⟨SeverityInfo, .string "foo", [], fixedTime⟩], []⟩ [.value (.string "foo")] = [] ∧
    reports ⟨[⟨SeverityError, .string "bar", [], fixedTime⟩,
        ⟨SeverityInfo, .string "foo", [], fixedTime⟩], []⟩ [.value (.string "foo")] = [] :=
  ⟨(reports_eq_nil_iff _ _).mpr ⟨_, List.mem_cons_self _ _, by decide⟩,
   (ShouldHaveLogged_monotone [] [.value (.string "foo")]
      [⟨SeverityInfo, .string "foo", [], fixedTime⟩]
      [⟨SeverityError, .string "bar", [], fixedTime⟩]
      ((reports_eq_nil_iff _ _).mpr ⟨_, List.mem_cons_self _ _, by decide⟩)).2.1⟩

end otellogtest

namespace tracecontext

/-! ## The context carrier and the codec -/

/-- C12: `TraceparentFromCtx` reports a value as present exactly when both a trace id `T` and
a span id `S` are stored on the context, and the value is then `"00-" + T + "-" + S + "-01"`;
for the ids of the tests it is
`00-4bf92f3577b34da6a3ce929d0e0e4736-00f067aa0ba902b7-01` whichever id was stored first.
Storing one id returns a derived context from which that id reads back unchanged, which
leaves the other id as it was and has the input context as its lower layer. -/
theorem TraceparentFromCtx_present (ctx : Context) (traceId spanId : String) :
    (∀ v, TraceparentFromCtx ctx = some v ↔
      ∃ T S, TraceIdFromCtx ctx = some T ∧ SpanIdFromCtx ctx = some S ∧
        v = "00-" ++ T ++ "-" ++ S ++ "-01") ∧
    ((TraceparentFromCtx ctx).isSome
      ↔ (TraceIdFromCtx ctx).isSome ∧ (SpanIdFromCtx ctx).isSome) ∧
    TraceparentFromCtx (WithTraceIdCtx (WithSpanIdCtx Background "00f067aa0ba902b7")
        "4bf92f3577b34da6a3ce929d0e0e4736")
      = some "00-4bf92f3577b34da6a3ce929d0e0e4736-00f067aa0ba902b7-01" ∧
    TraceparentFromCtx (WithSpanIdCtx (WithTraceIdCtx Background
        "4bf92f3577b34da6a3ce929d0e0e4736") "00f067aa0ba902b7")
      = some "00-4bf92f3577b34da6a3ce929d0e0e4736-00f067aa0ba902b7-01" ∧
    TraceIdFromCtx (WithTraceIdCtx ctx traceId) = some traceId ∧
    SpanIdFromCtx (WithTraceIdCtx ctx traceId) = SpanIdFromCtx ctx ∧
    SpanIdFromCtx (WithSpanIdCtx ctx spanId) = some spanId ∧
    TraceIdFromCtx (WithSpanIdCtx ctx spanId) = TraceIdFromCtx ctx ∧
    (WithTraceIdCtx ctx traceId).tail = ctx ∧
    (WithSpanIdCtx ctx spanId).tail = ctx := by
  refine ⟨?_, ?_, by decide, by decide, ?_, ?_, ?_, ?_, rfl, rfl⟩
  · intro v
    unfold TraceparentFromCtx serialize
    cases ht : TraceIdFromCtx ctx <;> cases hs : SpanIdFromCtx ctx <;> simp [eq_comm]
  · unfold TraceparentFromCtx
    cases ht : TraceIdFromCtx ctx <;> cases hs : SpanIdFromCtx ctx <;> simp
  · simp [TraceIdFromCtx, WithTraceIdCtx, List.lookup_cons]
  · exact lookup_same_ne ctx traceIdKey spanIdKey traceId (by decide)
  · simp [SpanIdFromCtx, WithSpanIdCtx, List.lookup_cons]
  · exact lookup_same_ne ctx spanIdKey traceIdKey spanId (by decide)

/-- C13: for a valid trace id (32 lowercase hexadecimal characters, not all zero) and a valid
span id (16 lowercase hexadecimal characters, not all zero), parsing the serialized
traceparent returns the same ids and ok = true. -/
theorem parse_serialize (traceId spanId : String)
    (ht : isHexOfLength 32 traceId.data = true) (htz : allZero traceId.data = false)
    (hs : isHexOfLength 16 spanId.data = true) (hsz : allZero spanId.data = false) :
    parse (serialize traceId spanId) = some (traceId, spanId) := by
  have hser : serialize traceId spanId = "00-" ++ traceId ++ "-" ++ spanId ++ "-" ++ "01" := by
    unfold serialize
    apply String.ext
    simp [String.data_append]
  rw [hser]
  exact parse_of_valid traceId spanId "01" ht htz hs hsz (by decide)

theorem parse_serialize_witness :
    isHexOfLength 32 "4bf92f3577b34da6a3ce929d0e0e4736".data = true ∧
    allZero "4bf92f3577b34da6a3ce929d0e0e4736".data = false ∧
    isHexOfLength 16 "00f067aa0ba902b7".data = true ∧
    allZero "00f067aa0ba902b7".data = false ∧
    parse (serialize "4bf92f3577b34da6a3ce929d0e0e4736" "00f067aa0ba902b7")
      = some ("4bf92f3577b34da6a3ce929d0e0e4736", "00f067aa0ba902b7") :=
  ⟨by decide, by decide, by decide, by decide,
   parse_serialize "4bf92f3577b34da6a3ce929d0e0e4736" "00f067aa0ba902b7"
     (by decide) (by decide) (by decide) (by decide)⟩

end tracecontext

namespace tracecontext

/-! ## The middleware and the outbound injector -/

theorem deriveCtx_of_parse_none (traceparent : String) (ctx : Context) (rnd : RandomSource)
    (hp : parse traceparent = none) (hrnd : 24 ≤ rnd.length) :
    deriveCtx traceparent ctx rnd
      = some (WithSpanIdCtx
          (WithTraceIdCtx ctx (String.mk (hexEncode (rnd.take 16))))
          (String.mk (hexEncode ((rnd.drop 16).take 8))), (rnd.drop 16).drop 8) := by
  have h16 : 16 ≤ rnd.length := by omega
  have h8 : 8 ≤ (rnd.drop 16).length := by simp; omega
  unfold deriveCtx
  simp only [hp, newTraceId, newSpanId, (randomHex_of_le 16 rnd h16).1,
    (randomHex_of_le 8 (rnd.drop 16) h8).1]

theorem deriveCtx_of_parse_some (traceparent traceId spanId : String) (ctx : Context)
    (rnd : RandomSource) (hp : parse traceparent = some (traceId, spanId))
    (hrnd : 8 ≤ rnd.length) :
    deriveCtx traceparent ctx rnd
      = some (WithSpanIdCtx (WithTraceIdCtx ctx traceId)
          (String.mk (hexEncode (rnd.take 8))), rnd.drop 8) := by
  unfold deriveCtx
  simp only [hp, newSpanId, (randomHex_of_le 8 rnd hrnd).1]

theorem ids_of_derived (ctx : Context) (traceId spanId : String) :
    TraceIdFromCtx (WithSpanIdCtx (WithTraceIdCtx ctx traceId) spanId) = some traceId ∧
    SpanIdFromCtx (WithSpanIdCtx (WithTraceIdCtx ctx traceId) spanId) = some spanId ∧
    TraceparentFromCtx (WithSpanIdCtx (WithTraceIdCtx ctx traceId) spanId)
      = some ("00-" ++ traceId ++ "-" ++ spanId ++ "-01") := by
  have h1 : TraceIdFromCtx (WithSpanIdCtx (WithTraceIdCtx ctx traceId) spanId)
      = some traceId := by
    simp [TraceIdFromCtx, WithSpanIdCtx, WithTraceIdCtx, List.lookup_cons, traceIdKey,
      spanIdKey]
  have h2 : SpanIdFromCtx (WithSpanIdCtx (WithTraceIdCtx ctx traceId) spanId)
      = some spanId := by
    simp [SpanIdFromCtx, WithSpanIdCtx, List.lookup_cons]
  refine ⟨h1, h2, ?_⟩
  unfold TraceparentFromCtx
  rw [h1, h2]
  rfl

/-- C14: for a header value that is malformed as a traceparent, `parse` returns ok = false
and the middleware derives the context exactly as for a missing header (which reads as the
empty string): as long as the random source delivers the 24 bytes of two identifiers, the
inner handler is called, with a context that carries a generated trace id of length 32
and a generated span id of length 16.  With the header `invalid` the spy of the tests is
called and sees such ids. -/
theorem malformed_header_generates (headerValue : String) (hmal : malformed headerValue) :
    parse headerValue = none ∧
    (∀ ctx rnd, deriveCtx headerValue ctx rnd = deriveCtx "" ctx rnd) ∧
    (∀ (σ : Type) (next : Request → σ → σ) (req : Request) (rnd : RandomSource) (st : σ),
      req.Header.Get traceparentHeader = headerValue → 24 ≤ rnd.length →
      ∃ T S : String,
        newTraceId rnd = some (T, rnd.drop 16) ∧
        newSpanId (rnd.drop 16) = some (S, (rnd.drop 16).drop 8) ∧
        T.length = 32 ∧ S.length = 16 ∧
        AddToCtx next req rnd st
          = some (next { req with ctx := WithSpanIdCtx (WithTraceIdCtx req.ctx T) S } st,
              (rnd.drop 16).drop 8) ∧
        TraceIdFromCtx (WithSpanIdCtx (WithTraceIdCtx req.ctx T) S) = some T ∧
        SpanIdFromCtx (WithSpanIdCtx (WithTraceIdCtx req.ctx T) S) = some S) ∧
    (AddToCtx handlerSpy.ServeHTTP
        { NewRequest "GET" "/myresource/sub" with Header := [("traceparent", "invalid")] }
        (List.replicate 24 171) ⟨false, "", "", ""⟩).map
      (fun r => (r.1.hasBeenCalled, r.1.traceId.length, r.1.spanId.length))
      = some (true, 32, 16) := by
  have hp : parse headerValue = none := (parse_eq_none_iff headerValue).mpr hmal
  have hp0 : parse "" = none := by decide
  refine ⟨hp, ?_, ?_, by decide⟩
  · intro ctx rnd
    unfold deriveCtx
    rw [hp, hp0]
  · intro σ next req rnd st hget hrnd
    have h16 : 16 ≤ rnd.length := by omega
    have h8 : 8 ≤ (rnd.drop 16).length := by simp; omega
    refine ⟨String.mk (hexEncode (rnd.take 16)),
      String.mk (hexEncode ((rnd.drop 16).take 8)),
      (randomHex_of_le 16 rnd h16).1, (randomHex_of_le 8 _ h8).1,
      (randomHex_of_le 16 rnd h16).2, (randomHex_of_le 8 _ h8).2, ?_,
      (ids_of_derived _ _ _).1, (ids_of_derived _ _ _).2.1⟩
    unfold AddToCtx
    simp only [hget, deriveCtx_of_parse_none headerValue req.ctx rnd hp hrnd]

theorem malformed_header_generates_witness :
    malformed "invalid" ∧ parse "invalid" = none :=
  ⟨by decide, (malformed_header_generates "invalid" (by decide)).1⟩

/-- C15: for an inbound request whose traceparent header is structurally valid with trace id
`T` (a valid span id, any flags of two hexadecimal characters), and a random source that
delivers the 8 bytes of a span id, the handler wrapped by `AddToCtx` is invoked with a
context on which `TraceIdFromCtx` returns `T`, `SpanIdFromCtx` returns the 16-character span
id `N` that the generator produced, and `TraceparentFromCtx` returns
`"00-" + T + "-" + N + "-01"`: the inbound flags are replaced by `01`.  With the header of
the tests that ends in the flags `00`, the spy sees the traceparent that ends in `01`. -/
theorem valid_header_keeps_trace_id {σ : Type} (next : Request → σ → σ) (req : Request)
    (rnd : RandomSource) (st : σ) (T S F : String)
    (hheader : req.Header.Get traceparentHeader = "00-" ++ T ++ "-" ++ S ++ "-" ++ F)
    (hT : isHexOfLength 32 T.data = true) (hTz : allZero T.data = false)
    (hS : isHexOfLength 16 S.data = true) (hSz : allZero S.data = false)
    (hF : isHexOfLength 2 F.data = true) (hrnd : 8 ≤ rnd.length) :
    (∃ N : String,
      newSpanId rnd = some (N, rnd.drop 8) ∧ N.length = 16 ∧
      AddToCtx next req rnd st
        = some (next { req with ctx := WithSpanIdCtx (WithTraceIdCtx req.ctx T) N } st,
            rnd.drop 8) ∧
      TraceIdFromCtx (WithSpanIdCtx (WithTraceIdCtx req.ctx T) N) = some T ∧
      SpanIdFromCtx (WithSpanIdCtx (WithTraceIdCtx req.ctx T) N) = some N ∧
      TraceparentFromCtx (WithSpanIdCtx (WithTraceIdCtx req.ctx T) N)
        = some ("00-" ++ T ++ "-" ++ N ++ "-01")) ∧
    (AddToCtx handlerSpy.ServeHTTP
        { NewRequest "GET" "/myresource/sub" with
          Header := [("traceparent",
            "00-4bf92f3577b34da6a3ce929d0e0e4736-00f067aa0ba902b7-00")] }
        (List.replicate 8 171) ⟨false, "", "", ""⟩).map
      (fun r => (r.1.hasBeenCalled, r.1.traceId, r.1.spanId, r.1.traceparent))
      = some (true, "4bf92f3577b34da6a3ce929d0e0e4736", "abababababababab",
          "00-4bf92f3577b34da6a3ce929d0e0e4736-abababababababab-01") := by
  refine ⟨?_, by decide⟩
  have hp := parse_of_valid T S F hT hTz hS hSz hF
  refine ⟨String.mk (hexEncode (rnd.take 8)), (randomHex_of_le 8 rnd hrnd).1,
    (randomHex_of_le 8 rnd hrnd).2, ?_, (ids_of_derived _ _ _).1, (ids_of_derived _ _ _).2.1,
    (ids_of_derived _ _ _).2.2⟩
  unfold AddToCtx
  simp only [hheader, deriveCtx_of_parse_some _ T S req.ctx rnd hp hrnd]

theorem valid_header_keeps_trace_id_witness :
    Header.Get [("traceparent", "00-4bf92f3577b34da6a3ce929d0e0e4736-00f067aa0ba902b7-00")]
        traceparentHeader
      = "00-" ++ "4bf92f3577b34da6a3ce929d0e0e4736" ++ "-" ++ "00f067aa0ba902b7" ++ "-" ++ "00" ∧
    (8 : Nat) ≤ (List.replicate 8 (171 : UInt8)).length ∧
    ∃ N : String,
      newSpanId (List.replicate 8 171) = some (N, (List.replicate 8 (171 : UInt8)).drop 8) ∧
      N.length = 16 :=
  ⟨by decide, by decide,
   (valid_header_keeps_trace_id handlerSpy.ServeHTTP
      { NewRequest "GET" "/myresource/sub" with
        Header := [("traceparent",
          "00-4bf92f3577b34da6a3ce929d0e0e4736-00f067aa0ba902b7-00")] }
      (List.replicate 8 171) ⟨false, "", "", ""⟩
      "4bf92f3577b34da6a3ce929d0e0e4736" "00f067aa0ba902b7" "00"
      (by decide) (by decide) (by decide) (by decide) (by decide) (by decide)
      (by decide)).1.imp (fun _ h => ⟨h.1, h.2.1⟩)⟩

/-- C16: `RoundTripper(inner).RoundTrip(req)` hands `inner` the request with its traceparent
header set to the value of `TraceparentFromCtx(req.Context())` when that value is present,
which overwrites a traceparent header already on the request and leaves the other headers
as they are; it hands `inner` the request unchanged when the value is absent; in both cases
it returns what `inner` returned.  With the mock of the tests, the header of the request
that arrives is the traceparent of the context, or empty without a trace context. -/
theorem RoundTrip_sets_traceparent {ρ : Type} (inner : Request → ρ) (req : Request) :
    (∀ tp, TraceparentFromCtx req.ctx = some tp →
      RoundTrip inner req
        = inner { req with Header := req.Header.Set traceparentHeader tp } ∧
      (req.Header.Set traceparentHeader tp).Get traceparentHeader = tp ∧
      (∀ name, name ≠ traceparentHeader →
        (req.Header.Set traceparentHeader tp).Get name = req.Header.Get name)) ∧
    (TraceparentFromCtx req.ctx = none → RoundTrip inner req = inner req) ∧
    (RoundTrip roundTripperMock.RoundTrip
        { NewRequest "GET" "/myresource/sub" with
          Header := [("traceparent", "old")]
          ctx := WithTraceIdCtx (WithSpanIdCtx Background "00f067aa0ba902b7")
            "4bf92f3577b34da6a3ce929d0e0e4736" }
      = ({ Request :=
            { NewRequest "GET" "/myresource/sub" with
              Header := [("traceparent",
                "00-4bf92f3577b34da6a3ce929d0e0e4736-00f067aa0ba902b7-01")]
              ctx := WithTraceIdCtx (WithSpanIdCtx Background "00f067aa0ba902b7")
                "4bf92f3577b34da6a3ce929d0e0e4736" } }, none)) ∧
    ((RoundTrip roundTripperMock.RoundTrip
        (NewRequest "GET" "/myresource/sub")).1.Request.Header.Get "traceparent" = "" ∧
      RoundTrip roundTripperMock.RoundTrip (NewRequest "GET" "/myresource/sub")
        = roundTripperMock.RoundTrip (NewRequest "GET" "/myresource/sub")) := by
  refine ⟨?_, ?_, by decide, by decide, by decide⟩
  · intro tp htp
    refine ⟨?_, ?_, ?_⟩
    · unfold RoundTrip
      rw [htp]
    · rw [Header_Get_Set, if_pos rfl]
    · intro name hname
      rw [Header_Get_Set, if_neg hname]
  · intro hnone
    unfold RoundTrip
    rw [hnone]

end tracecontext

namespace otellogtest

/-! ## `ContainsAttribute` on attributes of any kind -/

theorem value_unique_of_nodup_keys {β : Type} (l : List (String × β))
    (h : (l.map Prod.fst).Nodup) (k : String) (a b : β)
    (ha : (k, a) ∈ l) (hb : (k, b) ∈ l) : a = b := by
  induction l with
  | nil => cases ha
  | cons kv l ih =>
    rw [List.map_cons, List.nodup_cons] at h
    obtain ⟨hnot, hnd⟩ := h
    rcases List.mem_cons.mp ha with ha | ha <;> rcases List.mem_cons.mp hb with hb | hb
    · rw [← ha] at hb
      exact (Prod.mk.inj hb).2.symm
    · exact absurd (List.mem_map.mpr ⟨(k, b), hb, by rw [← ha]⟩) hnot
    · exact absurd (List.mem_map.mpr ⟨(k, a), ha, by rw [← hb]⟩) hnot
    · exact ih hnd ha hb

theorem asString_eq_of_not_string (jv : JsonValue) (h : ∀ s, jv ≠ .string s) :
    jv.asString = "" := by
  cases jv with
  | string s => exact absurd rfl (h s)
  | null => rfl
  | other => rfl

theorem index_object (members : List (String × JsonValue)) (key s : String)
    (hkeys : (members.map Prod.fst).Nodup) :
    ((jsonUnmarshalDoc (.object members) []).1).index key = s ↔
      (key, JsonValue.string s) ∈ members ∨
        (s = "" ∧ ∀ s', (key, JsonValue.string s') ∉ members) := by
  have hfold : (jsonUnmarshalDoc (.object members) []).1
      = jsonUnmarshal (members.map (fun kv => (kv.1, kv.2.asString))) [] := by
    simp [jsonUnmarshalDoc, jsonUnmarshal, List.foldl_map]
  have hkeys' : ((members.map (fun kv => (kv.1, kv.2.asString))).map Prod.fst).Nodup := by
    simpa [List.map_map, Function.comp_def] using hkeys
  have hmemkeys : key ∈ (members.map (fun kv => (kv.1, kv.2.asString))).map Prod.fst
      ↔ key ∈ members.map Prod.fst := by
    simp [List.map_map, Function.comp_def]
  rw [hfold, index_jsonUnmarshal _ key s hkeys', hmemkeys]
  constructor
  · rintro (hmem | ⟨hnot, hs⟩)
    · obtain ⟨⟨k, jv⟩, hin, heq⟩ := List.mem_map.mp hmem
      simp only [Prod.mk.injEq] at heq
      obtain ⟨hk, hv⟩ := heq
      subst hk
      by_cases hstr : ∃ s0, jv = .string s0
      · obtain ⟨s0, rfl⟩ := hstr
        simp only [JsonValue.asString] at hv
        subst hv
        exact Or.inl hin
      · have hns : ∀ s0, jv ≠ .string s0 := fun s0 e => hstr ⟨s0, e⟩
        rw [asString_eq_of_not_string jv hns] at hv
        refine Or.inr ⟨hv.symm, ?_⟩
        intro s' hin'
        exact hns s' (value_unique_of_nodup_keys members hkeys k _ _ hin hin')
    · refine Or.inr ⟨hs, ?_⟩
      intro s' hin'
      exact hnot (List.mem_map.mpr ⟨(key, .string s'), hin', rfl⟩)
  · rintro (hin | ⟨hs, hnone⟩)
    · exact Or.inl (List.mem_map.mpr ⟨(key, .string s), hin, rfl⟩)
    · by_cases hk : key ∈ members.map Prod.fst
      · obtain ⟨⟨k, jv⟩, hin, hkeq⟩ := List.mem_map.mp hk
        simp only at hkeq
        subst hkeq
        have hns : ∀ s0, jv ≠ .string s0 := fun s0 e => hnone s0 (e ▸ hin)
        refine Or.inl (List.mem_map.mpr ⟨(k, jv), hin, ?_⟩)
        simp only [asString_eq_of_not_string jv hns, hs]
      · exact Or.inr ⟨hk, hs⟩

theorem ContainsAttributeOn_object_iff (members : List (String × JsonValue))
    (key : String) (value : GoAny) (hkeys : (members.map Prod.fst).Nodup) :
    ContainsAttributeOn (.ok (.object members)) key value = true ↔
      ∃ s, value = .value (.string s) ∧
        ((key, JsonValue.string s) ∈ members ∨
          (s = "" ∧ ∀ s', (key, JsonValue.string s') ∉ members)) := by
  unfold ContainsAttributeOn Marshalled.bytes
  dsimp only
  cases value with
  | func entry f => simp [stringEqAny]
  | value w =>
    cases w <;> simp only [stringEqAny, Bool.false_eq_true, false_iff, not_exists, not_and,
      GoAny.value.injEq, reduceCtorEq, false_implies, implies_true]
    case string s' =>
      rw [beq_iff_eq, index_object members key s' hkeys]
      constructor
      · intro h; exact ⟨s', rfl, h⟩
      · rintro ⟨s, hs, h⟩
        cases hs
        exact h

/-- C8, amended: for every key, every value and every event whose attributes encode to a
JSON object with distinct keys, `ContainsAttribute(key, value)(event)` is true exactly when
`value` is a built-in string `s` and either the attributes hold `key` with the string value
`s`, or `s` is the empty string and the attributes hold no string under `key` (the key is
absent, or its value is not a string, such as count=5); a value of any other dynamic type
never matches.  On an event whose attributes are all strings this reads: the mapping holds
`key` with the value `s`, or it holds no `key` and `s` is the empty string.
`ContainsAttribute("foo", "bar")` is true for an event that carries the attribute foo="bar"
and false for an event that carries no attribute foo. -/
theorem ContainsAttribute_iff (key : String) (value : GoAny) (event : Event)
    (hkeys : (event.Attributes.map Prod.fst).Nodup) :
    (ContainsAttribute key value event = true ↔
      ∃ s, value = .value (.string s) ∧
        ((key, s) ∈ event.Attributes ∨ (key ∉ event.Attributes.map Prod.fst ∧ s = ""))) ∧
    (("foo", "bar") ∈ event.Attributes →
      ContainsAttribute "foo" (.value (.string "bar")) event = true) ∧
    ("foo" ∉ event.Attributes.map Prod.fst →
      ContainsAttribute "foo" (.value (.string "bar")) event = false) ∧
    ContainsAttribute key value event
      = ContainsAttributeOn event.Attributes.marshalled key value ∧
    (∀ members : List (String × JsonValue), (members.map Prod.fst).Nodup →
      ((ContainsAttributeOn (.ok (.object members)) key value = true ↔
        ∃ s, value = .value (.string s) ∧
          ((key, JsonValue.string s) ∈ members ∨
            (s = "" ∧ ∀ s', (key, JsonValue.string s') ∉ members))) ∧
       ((∀ s, value ≠ .value (.string s)) →
        ContainsAttributeOn (.ok (.object members)) key value = false) ∧
       (("foo", JsonValue.string "bar") ∈ members →
        ContainsAttributeOn (.ok (.object members)) "foo" (.value (.string "bar")) = true) ∧
       ("foo" ∉ members.map Prod.fst →
        ContainsAttributeOn (.ok (.object members)) "foo" (.value (.string "bar"))
          = false))) ∧
    ContainsAttributeOn (.ok (.object [("foo", .string "bar"), ("count", .other)]))
      "count" (.value (.string "")) = true ∧
    ContainsAttributeOn (.ok (.object [("foo", .string "bar"), ("count", .other)]))
      "count" (.value (.string "5")) = false := by
  refine ⟨ContainsAttribute_iff_strings key value event hkeys, ?_, ?_,
    ContainsAttribute_eq_On key value event, ?_, by decide, by decide⟩
  · intro hmem
    exact (ContainsAttribute_iff_strings _ _ event hkeys).mpr ⟨"bar", rfl, Or.inl hmem⟩
  · intro hnot
    cases hc : ContainsAttribute "foo" (.value (.string "bar")) event
    · rfl
    · obtain ⟨s, hs, h⟩ := (ContainsAttribute_iff_strings _ _ event hkeys).mp hc
      cases hs
      rcases h with h | ⟨-, h⟩
      · exact absurd (List.mem_map.mpr ⟨("foo", "bar"), h, rfl⟩) hnot
      · exact absurd h (by decide)
  · intro members hnd
    refine ⟨ContainsAttributeOn_object_iff members key value hnd, ?_, ?_, ?_⟩
    · intro hv
      unfold ContainsAttributeOn
      exact stringEqAny_of_not_string _ value hv
    · intro hmem
      exact (ContainsAttributeOn_object_iff members _ _ hnd).mpr ⟨"bar", rfl, Or.inl hmem⟩
    · intro hnot
      cases hc : ContainsAttributeOn (.ok (.object members)) "foo" (.value (.string "bar"))
      · rfl
      · obtain ⟨s, hs, h⟩ := (ContainsAttributeOn_object_iff members _ _ hnd).mp hc
        cases hs
        rcases h with h | ⟨h, -⟩
        · exact absurd (List.mem_map.mpr ⟨("foo", .string "bar"), h, rfl⟩) hnot
        · exact absurd h (by decide)

theorem ContainsAttribute_iff_witness :
    ((Event.mk SeverityInfo (.string "test") [("foo", "bar")] fixedTime).Attributes.map
        Prod.fst).Nodup ∧
    ContainsAttribute "foo" (.value (.string "bar"))
      ⟨SeverityInfo, .string "test", [("foo", "bar")], fixedTime⟩ = true ∧
    (([("foo", JsonValue.string "bar"), ("count", JsonValue.other)].map Prod.fst).Nodup ∧
      (ContainsAttributeOn (.ok (.object [("foo", .string "bar"), ("count", .other)]))
          "foo" (.value (.string "bar")) = true)) :=
  ⟨by decide,
   (ContainsAttribute_iff "foo" (.value (.string "bar"))
      ⟨SeverityInfo, .string "test", [("foo", "bar")], fixedTime⟩ (by decide)).2.1
      (by decide),
   by decide,
   ((ContainsAttribute_iff "foo" (.value (.string "bar"))
      ⟨SeverityInfo, .string "test", [("foo", "bar")], fixedTime⟩ (by decide)).2.2.2.2.1
      [("foo", .string "bar"), ("count", .other)] (by decide)).2.2.1 (by decide)⟩

end otellogtest
